import Mathlib

/-!
Verification of the normalization/enrichment pipeline of the event scraper
(`src/scraper/scrape_events.py`): deduplication, location resolution with
geocode caching and rate limiting, heuristic feature tagging, and temporal
filtering.  Python strings are modelled as `List Char`; the external geocoding
service and the external date parser are parameters of the embedding.
-/

namespace Scraper

/-- Python strings, modelled as lists of characters. -/
abbrev Str := List Char

/-- Shorthand to turn a Lean string literal into the `Str` model. -/
def txt (s : String) : Str := s.toList

/-- Python `str.lower()` (ASCII, which covers all data in this program). -/
def lowerStr (s : Str) : Str := s.map Char.toLower

/-- Python's `pat in s` substring test. -/
def csub (s pat : Str) : Bool := decide (pat <:+: s)

/-- Python `str.strip()`: drop whitespace from both ends. -/
def stripStr (s : Str) : Str :=
  ((s.dropWhile Char.isWhitespace).reverse.dropWhile Char.isWhitespace).reverse

/-- Split a character list at every occurrence of `sep`
(Python `str.split(sep)`: keeps empty segments). -/
def splitOnC (sep : Char) (l : Str) : List Str :=
  l.foldr
    (fun c acc =>
      if c = sep then [] :: acc
      else
        match acc with
        | [] => [[c]]
        | a :: as => (c :: a) :: as)
    [[]]

/-- Split at whitespace and drop empty segments
(Python no-argument `str.split()`). -/
def splitWs (l : Str) : List Str :=
  (l.foldr
    (fun c acc =>
      if c.isWhitespace then [] :: acc
      else
        match acc with
        | [] => [[c]]
        | a :: as => (c :: a) :: as)
    [[]]).filter (· ≠ [])

example : splitOnC ',' (txt "a,b") = [txt "a", txt "b"] := by decide
example : splitOnC ',' (txt "") = [[]] := by decide
example : splitWs (txt " a b  c ") = [txt "a", txt "b", txt "c"] := by decide
example : lowerStr (txt "AbC") = txt "abc" := by decide
example : stripStr (txt "  x y ") = txt "x y" := by decide
example : csub (txt "free networking") (txt "work") = true := by decide
example : csub (txt "free networking") (txt "cost") = false := by decide

/-! ### Data model -/

/-- The `location` sub-dictionary of a raw event (`{'name': ..., 'address': ...}`);
`none` fields model absent dictionary keys. -/
structure RawLocation where
  name : Option Str
  address : Option Str
deriving DecidableEq

/-- A raw event record as assembled by the per-source adapters and handed to
`_add_event` / `enrich_events`.  `none` models an absent dictionary key;
`captainForged` models `event.get('captainForged', False)`. -/
structure RawEvent where
  title : Option Str
  description : Option Str
  url : Option Str
  date : Option Str
  source : Option Str
  organizer : Option Str
  id : Option Str
  location : Option RawLocation
  captainForged : Bool
deriving DecidableEq

/-- Geocoding result: the dictionary `{'lat', 'lng', 'address'}` built from the
top-ranked candidate of the external service.  Coordinates are modelled as
exact rationals. -/
structure LocData where
  lat : ℚ
  lng : ℚ
  address : Str
deriving DecidableEq

/-- The resolved location written into `event['location']` by `enrich_events`:
`{'name', 'address', 'lat', 'lng'}`, always populated on a finalized record. -/
structure ResolvedLocation where
  name : Str
  address : Str
  lat : ℚ
  lng : ℚ
deriving DecidableEq

/-- The six feature booleans written into `event['features']`. -/
structure Features where
  free : Bool
  food : Bool
  appetizers : Bool
  nonAlcoholDrinks : Bool
  alcoholDrinks : Bool
  captainForged : Bool
deriving DecidableEq

/-- A finalized catalog event: the raw fields plus the backfilled
`description`/`organizer`/`id` and the attached location and features. -/
structure CatalogEvent where
  title : Option Str
  description : Str
  url : Option Str
  date : Option Str
  source : Option Str
  organizer : Str
  id : Str
  location : ResolvedLocation
  features : Features
deriving DecidableEq

/-! ### Geocoding with cache and rate limit (`geocode_address`) -/

/-- The observable effects of the resolver: sleeping (rate-limit delay, in
seconds) and issuing an HTTP request to the external geocoding service. -/
inductive Action where
  | sleep (d : ℚ)
  | request (q : Str)
deriving DecidableEq

/-- The run-scoped geocode cache `self.geocode_cache`, an insert-only map from
normalized address text to geocoding results. -/
abbrev Cache := List (Str × LocData)

/-- Dictionary lookup in the geocode cache. -/
def Cache.find : Cache → Str → Option LocData
  | [], _ => none
  | (k, v) :: rest, key => if k = key then some v else Cache.find rest key

/-- The cache key: `address.lower().strip()`. -/
def normKey (address : Str) : Str := stripStr (lowerStr address)

/-- The query string sent to the service:
`f"{address}, Indiana" if "indiana" not in address.lower() and ", in" not in address.lower() else address`. -/
def buildQuery (address : Str) : Str :=
  if ¬ csub (lowerStr address) (txt "indiana") ∧ ¬ csub (lowerStr address) (txt ", in")
  then address ++ txt ", Indiana" else address

/-- `EventScraper.geocode_address`.  The external service is the parameter
`svc` (returning `none` for any failure: non-200 status, empty result list, or
a network/parse exception — in all of which the code caches nothing and
returns `None`).  Returns the result, the updated cache, and the emitted
actions: a cache hit performs no action; a miss sleeps 1.1 seconds and then
issues one request. -/
def geocode_address (svc : Str → Option LocData) (cache : Cache) (address : Str) :
    Option LocData × Cache × List Action :=
  let key := normKey address
  match Cache.find cache key with
  | some v => (some v, cache, [])
  | none =>
    let q := buildQuery address
    match svc q with
    | some loc => (some loc, (key, loc) :: cache, [Action.sleep (11/10), Action.request q])
    | none => (none, cache, [Action.sleep (11/10), Action.request q])

/-- Processing a list of addresses through `geocode_address` in order,
threading the cache and concatenating the emitted actions. -/
def runGeocodes (svc : Str → Option LocData) (cache : Cache) :
    List Str → Cache × List Action
  | [] => (cache, [])
  | a :: as =>
    let r := geocode_address svc cache a
    let rest := runGeocodes svc r.2.1 as
    (rest.1, r.2.2 ++ rest.2)

/-! ### Deduplication (`_add_event`) -/

/-- The dedup identifier `f"{event_data.get('title', '')}_{event_data.get('date', '')}"`:
title and date joined by an underscore, absent fields as empty strings. -/
def dedupKey (e : RawEvent) : Str :=
  e.title.getD [] ++ txt "_" ++ e.date.getD []

/-- The dedup key as the claim words it: the literal concatenation of title
and date with no separator.  (Stated from the spec for comparison with
`dedupKey`, which is taken from the source.) -/
def claimConcatKey (e : RawEvent) : Str :=
  e.title.getD [] ++ e.date.getD []

/-- `EventScraper._add_event`: state is the seen-key set `self.seen_events`
and the accepted list `self.events`; a record whose key was already seen is
discarded with no side effect. -/
def addEvent (seen : List Str) (events : List RawEvent) (e : RawEvent) :
    List Str × List RawEvent :=
  let k := dedupKey e
  if k ∈ seen then (seen, events) else (k :: seen, events ++ [e])

/-- Feeding a list of raw records through `_add_event` in order. -/
def addEvents (seen : List Str) (events : List RawEvent) :
    List RawEvent → List Str × List RawEvent
  | [] => (seen, events)
  | e :: es =>
    let r := addEvent seen events e
    addEvents r.1 r.2 es

/-- Number of accepted records sharing a given dedup key. -/
def countKey (k : Str) (events : List RawEvent) : Nat :=
  (events.filter (fun e => dedupKey e = k)).length

/-! ### Feature extraction (`enrich_events`, feature-detection block) -/

/-- The search buffer `title_lower + ' ' + desc_lower`. -/
def combined (title desc : Str) : Str :=
  lowerStr title ++ [' '] ++ lowerStr desc

/-- `any(keyword in combined_text for keyword in keywords)`. -/
def anyKey (s : Str) (keys : List Str) : Bool :=
  keys.any (fun k => csub s k)

def free_keywords : List Str :=
  [txt "free", txt "no cost", txt "complimentary", txt "no charge", txt "$0"]

def food_keywords : List Str :=
  [txt "dinner", txt "lunch", txt "breakfast", txt "meal", txt "catering",
   txt "buffet", txt "food provided", txt "pizza", txt "sandwiches"]

def food_event_types : List Str :=
  [txt "breakfast", txt "brunch", txt "lunch", txt "dinner", txt "banquet",
   txt "feast", txt "potluck", txt "pitch-in", txt "restaurant",
   txt "steakhouse", txt "bistro", txt "cafe"]

def appetizer_keywords : List Str :=
  [txt "appetizer", txt "snacks", txt "light refreshments", txt "hors",
   txt "finger food", txt "apps"]

def networking_keywords : List Str :=
  [txt "networking", txt "mixer", txt "meetup", txt "social", txt "reception"]

def nonalc_keywords : List Str :=
  [txt "coffee", txt "refreshments", txt "beverages", txt "soft drink",
   txt "water", txt "soda", txt "juice"]

def coffee_events : List Str :=
  [txt "coffee", txt "1 million cups", txt "morning", txt "cowork"]

def alc_keywords : List Str :=
  [txt "happy hour", txt "beer", txt "wine", txt "cocktails", txt "bar",
   txt "drinks", txt "alcohol", txt "brewery", txt "spirits", txt "party"]

/-- Every keyword list that feeds the search buffer. -/
def allKeywords : List Str :=
  free_keywords ++ food_keywords ++ food_event_types ++ appetizer_keywords ++
    networking_keywords ++ nonalc_keywords ++ coffee_events ++ alc_keywords

/-- The feature-detection block of `enrich_events`, preserving the source's
short-circuit order (`if not has_x and any(...): has_x = True`). -/
def computeFeatures (title desc : Str) (cf : Bool) : Features :=
  let c := combined title desc
  { free := anyKey c free_keywords
    food := if anyKey c food_keywords then true else anyKey c food_event_types
    appetizers :=
      if anyKey c appetizer_keywords then true else anyKey c networking_keywords
    nonAlcoholDrinks :=
      if anyKey c nonalc_keywords then true else anyKey c coffee_events
    alcoholDrinks := anyKey c alc_keywords
    captainForged := cf }

/-! ### Location resolution steps of `enrich_events` -/

/-- `address and (',' in address or len(address.split()) >= 3)`. -/
def looksComplete (address : Str) : Bool :=
  decide (address ≠ [] ∧ (',' ∈ address ∨ 3 ≤ (splitWs address).length))

/-- Python `str.title()` on ASCII text: uppercase a letter that follows a
non-letter, lowercase a letter that follows a letter. -/
def titleCaseAux : Bool → Str → Str
  | _, [] => []
  | prevAlpha, c :: cs =>
    let c' := if c.isAlpha then (if prevAlpha then c.toLower else c.toUpper) else c
    c' :: titleCaseAux c.isAlpha cs

def titleCase (s : Str) : Str := titleCaseAux false s

example : titleCase (txt "fort wayne") = txt "Fort Wayne" := by decide

/-- The static city-centroid table from `enrich_events`, in the source's
insertion order (Python dict iteration order). -/
def indiana_cities : List (Str × ℚ × ℚ) :=
  [ (txt "indianapolis", 39.7684, -86.1581),
    (txt "fort wayne", 41.0793, -85.1394),
    (txt "evansville", 37.9747, -87.5558),
    (txt "south bend", 41.6764, -86.2520),
    (txt "carmel", 39.9784, -86.1180),
    (txt "fishers", 39.9567, -86.0139),
    (txt "bloomington", 39.1653, -86.5264),
    (txt "lafayette", 40.4167, -86.8753),
    (txt "west lafayette", 40.4259, -86.9081),
    (txt "muncie", 40.1934, -85.3864),
    (txt "terre haute", 39.4667, -87.4139),
    (txt "kokomo", 40.4864, -86.1336),
    (txt "anderson", 40.1053, -85.6803),
    (txt "noblesville", 40.0456, -86.0086),
    (txt "westfield", 40.0428, -86.1275),
    (txt "greenwood", 39.6136, -86.1067),
    (txt "columbus", 39.2014, -85.9214),
    (txt "jeffersonville", 38.2776, -85.7372),
    (txt "new albany", 38.2856, -85.8241),
    (txt "valparaiso", 41.4731, -87.0611),
    (txt "hammond", 41.5833, -87.5000),
    (txt "gary", 41.5934, -87.3464),
    (txt "elkhart", 41.6820, -85.9767),
    (txt "mishawaka", 41.6614, -86.1586),
    (txt "goshen", 41.5823, -85.8347),
    (txt "plainfield", 39.7042, -86.3994),
    (txt "greenfield", 39.7851, -85.7694),
    (txt "richmond", 39.8289, -84.8902),
    (txt "logansport", 40.7545, -86.3567),
    (txt "marion", 40.5584, -85.6591),
    (txt "michigan city", 41.7075, -86.8950),
    (txt "crown point", 41.4170, -87.3653),
    (txt "munster", 41.5645, -87.5125),
    (txt "dyer", 41.4942, -87.5217),
    (txt "merrillville", 41.4828, -87.3328),
    (txt "odon", 38.8417, -86.9917),
    (txt "lawrence", 39.8386, -85.9936),
    (txt "newberry", 38.9167, -87.0333),
    (txt "french lick", 38.5489, -86.6197),
    (txt "bedford", 38.8611, -86.4872),
    (txt "jasper", 38.3914, -86.9311),
    (txt "vincennes", 38.6773, -87.5286),
    (txt "washington", 38.6592, -87.1728),
    (txt "scottsburg", 38.6856, -85.7703),
    (txt "seymour", 38.9592, -85.8903) ]

/-- The hard-coded default location (Indianapolis, the capital-city centroid). -/
def indyDefault : ResolvedLocation :=
  { name := txt "Indianapolis", address := txt "Indianapolis, IN",
    lat := 39.7684, lng := -86.1581 }

/-- Step 1 of location resolution: if the record carries a location with an
address key that looks complete, try the geocoder; on success build the
resolved location using the venue name, or the first comma-delimited address
segment (`venue_name or address.split(',')[0]`). -/
def locStep1 (svc : Str → Option LocData) (cache : Cache) (e : RawEvent) :
    Option ResolvedLocation × Cache × List Action :=
  match e.location with
  | none => (none, cache, [])
  | some loc =>
    match loc.address with
    | none => (none, cache, [])
    | some address =>
      if looksComplete address then
        let g := geocode_address svc cache address
        match g.1 with
        | some geo =>
          let venue := loc.name.getD []
          (some { name := if venue ≠ [] then venue else (splitOnC ',' address).headD []
                  address := address
                  lat := geo.lat
                  lng := geo.lng }, g.2.1, g.2.2)
        | none => (none, g.2.1, g.2.2)
      else (none, cache, [])

/-- Step 2 of location resolution: scan the lower-cased title against the
static city table; the first matching city yields its centroid and the
synthetic address `"<City>, Indiana"`. -/
def cityStep (e : RawEvent) : Option ResolvedLocation :=
  let tl := lowerStr (e.title.getD [])
  match indiana_cities.find? (fun c => csub tl c.1) with
  | some c =>
    some { name := titleCase c.1
           address := titleCase c.1 ++ txt ", Indiana"
           lat := c.2.1
           lng := c.2.2 }
  | none => none

/-- The body of the `enrich_events` loop for one record: resolve the location
(steps 1-3), compute the features from the title and the (possibly absent)
description, and backfill `organizer`, `description` and `id`.  `idHash`
models Python's run-seeded `str(abs(hash(...)))`. -/
def enrichEvent (svc : Str → Option LocData) (idHash : Str → Str) (cache : Cache)
    (e : RawEvent) : CatalogEvent × Cache × List Action :=
  let s1 := locStep1 svc cache e
  { fst :=
    { title := e.title
      description := e.description.getD (txt "Entrepreneur event: " ++ e.title.getD [])
      url := e.url
      date := e.date
      source := e.source
      organizer := e.organizer.getD (e.source.getD (txt "Unknown"))
      id := e.id.getD (idHash (e.title.getD [] ++ e.date.getD []))
      location := (s1.1 <|> cityStep e).getD indyDefault
      features := computeFeatures (e.title.getD []) (e.description.getD []) e.captainForged }
    snd := (s1.2.1, s1.2.2) }

/-- `EventScraper.enrich_events`: the loop over `self.events`, threading the
geocode cache and collecting the emitted actions. -/
def enrichEvents (svc : Str → Option LocData) (idHash : Str → Str) (cache : Cache) :
    List RawEvent → List CatalogEvent × Cache × List Action
  | [] => ([], cache, [])
  | e :: es =>
    let r := enrichEvent svc idHash cache e
    let rest := enrichEvents svc idHash r.2.1 es
    (r.1 :: rest.1, rest.2.1, r.2.2 ++ rest.2.2)

/-! ### Temporal filter (`filter_past_events`) -/

/-- The per-record keep decision of `filter_past_events`.  `parse` models the
external lenient date parser (`dateutil.parser.parse`), returning the parsed
date as seconds since 0001-01-01 (naive-`datetime` order and `timedelta`
arithmetic coincide with integer seconds), or `none` when parsing raises.
`now` is `datetime.now()` in the same scale; the cutoff is `now` minus 7 days. -/
def keepDate (parse : Str → Option Int) (now : Int) (date : Option Str) : Bool :=
  let ds := date.getD []
  if ds = [] ∨ ds = txt "TBD" then true
  else
    match parse ds with
    | none => true
    | some t => decide (now - 7 * 86400 ≤ t)

/-- `EventScraper.filter_past_events` over the enriched list. -/
def filter_past_events (parse : Str → Option Int) (now : Int)
    (events : List CatalogEvent) : List CatalogEvent :=
  events.filter (fun e => keepDate parse now e.date)

/-! ### A concrete instance of the external date parser on ISO-8601 input

`dateutil.parser.parse` is an external library; on strict ISO-8601 date-times
it returns the evident naive `datetime`.  `parseISO8601` is that restriction,
mapping `YYYY-MM-DDTHH:MM:SS` to seconds since 0001-01-01 (the proleptic
Gregorian calendar, as Python's `datetime` uses). -/

def digitsToNat : Str → Option Nat
  | [] => none
  | l =>
    if l.all Char.isDigit then
      some (l.foldl (fun acc c => 10 * acc + (c.toNat - 48)) 0)
    else none

def isLeap (y : Nat) : Bool :=
  decide ((y % 4 = 0 ∧ y % 100 ≠ 0) ∨ y % 400 = 0)

def monthDays (leap : Bool) : List Nat :=
  [31, if leap then 29 else 28, 31, 30, 31, 30, 31, 31, 30, 31, 30, 31]

def daysInMonth (y m : Nat) : Nat :=
  (monthDays (isLeap y)).getD (m - 1) 31

/-- Days strictly before year `y` in the proleptic Gregorian calendar
(Python `datetime._days_before_year`). -/
def daysBeforeYear (y : Nat) : Nat :=
  let n := y - 1
  365 * n + n / 4 - n / 100 + n / 400

def daysBeforeMonth (y m : Nat) : Nat :=
  ((monthDays (isLeap y)).take (m - 1)).foldl (· + ·) 0

/-- Seconds since 0001-01-01T00:00:00 of a civil date-time. -/
def epochSeconds (y m d h mi s : Nat) : Nat :=
  86400 * (daysBeforeYear y + daysBeforeMonth y m + (d - 1)) +
    3600 * h + 60 * mi + s

def parseISO8601 (s : Str) : Option Int :=
  match splitOnC 'T' s with
  | [dp, tp] =>
    match splitOnC '-' dp, splitOnC ':' tp with
    | [ys, ms, ds], [hs, mis, ss] =>
      match digitsToNat ys, digitsToNat ms, digitsToNat ds,
            digitsToNat hs, digitsToNat mis, digitsToNat ss with
      | some y, some m, some d, some h, some mi, some sec =>
        if 1 ≤ y ∧ 1 ≤ m ∧ m ≤ 12 ∧ 1 ≤ d ∧ d ≤ daysInMonth y m ∧
            h < 24 ∧ mi < 60 ∧ sec < 60 then
          some (Int.ofNat (epochSeconds y m d h mi sec))
        else none
      | _, _, _, _, _, _ => none
    | _, _ => none
  | _ => none

/-- Reference time used in the cutoff-boundary claims:
`2025-01-08T00:00:00`. -/
def refTime : Int := (parseISO8601 (txt "2025-01-08T00:00:00")).getD 0

example : parseISO8601 (txt "TBD") = none := by decide
example : parseISO8601 (txt "hello world") = none := by decide
example :
    parseISO8601 (txt "2025-01-08T00:00:00") =
      some ((parseISO8601 (txt "2025-01-01T00:00:00")).getD 0 + 7 * 86400) := by
  decide
example :
    parseISO8601 (txt "2024-12-31T23:59:59") =
      some ((parseISO8601 (txt "2025-01-01T00:00:00")).getD 0 - 1) := by
  decide

/-! ## Supporting lemmas for deduplication -/

theorem countKey_append_one (k : Str) (evs : List RawEvent) (e : RawEvent) :
    countKey k (evs ++ [e]) = countKey k evs + (if dedupKey e = k then 1 else 0) := by
  simp only [countKey, List.filter_append, List.length_append]
  by_cases h : dedupKey e = k <;> simp [h]

theorem addEvents_cons (seen : List Str) (evs : List RawEvent) (e : RawEvent)
    (es : List RawEvent) :
    addEvents seen evs (e :: es) =
      addEvents (addEvent seen evs e).1 (addEvent seen evs e).2 es := rfl

theorem addEvents_inv :
    ∀ (rs : List RawEvent) (seen : List Str) (evs : List RawEvent),
      (∀ k, countKey k evs = if k ∈ seen then 1 else 0) →
      ∀ k, countKey k (addEvents seen evs rs).2 =
        if k ∈ (addEvents seen evs rs).1 then 1 else 0 := by
  intro rs
  induction rs with
  | nil => intro seen evs h k; exact h k
  | cons e es ih =>
    intro seen evs h k
    rw [addEvents_cons]
    by_cases hm : dedupKey e ∈ seen
    · simp only [addEvent, if_pos hm]
      exact ih seen evs h k
    · simp only [addEvent, if_neg hm]
      apply ih
      intro k'
      rw [countKey_append_one]
      by_cases hk' : dedupKey e = k'
      · subst hk'
        rw [h (dedupKey e), if_neg hm, if_pos (List.mem_cons_self _ _)]
        simp
      · rw [h k']
        have hne : k' ≠ dedupKey e := fun hc => hk' hc.symm
        by_cases hks : k' ∈ seen
        · rw [if_pos hks, if_pos (List.mem_cons_of_mem _ hks), if_neg hk']
        · rw [if_neg hks, if_neg hk',
            if_neg (fun hc => by rcases List.mem_cons.mp hc with h1 | h2
                                 · exact hne h1
                                 · exact hks h2)]

theorem addEvents_seen_mono :
    ∀ (rs : List RawEvent) (seen : List Str) (evs : List RawEvent) (k : Str),
      k ∈ seen → k ∈ (addEvents seen evs rs).1 := by
  intro rs
  induction rs with
  | nil => intro seen evs k h; exact h
  | cons e es ih =>
    intro seen evs k h
    rw [addEvents_cons]
    apply ih
    simp only [addEvent]
    by_cases hm : dedupKey e ∈ seen
    · rw [if_pos hm]; exact h
    · rw [if_neg hm]; exact List.mem_cons_of_mem _ h

theorem addEvents_key_seen :
    ∀ (rs : List RawEvent) (seen : List Str) (evs : List RawEvent) (r : RawEvent),
      r ∈ rs → dedupKey r ∈ (addEvents seen evs rs).1 := by
  intro rs
  induction rs with
  | nil => intro seen evs r h; exact absurd h (List.not_mem_nil r)
  | cons e es ih =>
    intro seen evs r h
    rcases List.mem_cons.mp h with rfl | htail
    · rw [addEvents_cons]
      apply addEvents_seen_mono
      simp only [addEvent]
      by_cases hm : dedupKey r ∈ seen
      · rw [if_pos hm]; exact hm
      · rw [if_neg hm]; exact List.mem_cons_self _ _
    · rw [addEvents_cons]
      exact ih _ _ r htail

/-! ## Claim theorems -/

/-- A record sharing the concatenation key `"ab"` with an already accepted
record (`title="ab", date=absent` vs `title="a", date="b"`). -/
def recAB : RawEvent :=
  { title := some (txt "ab"), description := none, url := none, date := none,
    source := none, organizer := none, id := none, location := none,
    captainForged := false }

def recA_B : RawEvent :=
  { title := some (txt "a"), description := none, url := none,
    date := some (txt "b"), source := none, organizer := none, id := none,
    location := none, captainForged := false }

/-- C2 counterexample: the claim's key — the literal concatenation of title
and date — is equal for `recAB` and `recA_B`, so the claim says the second
record is discarded; the code accepts both, because its actual key joins
title and date with an underscore (`"ab_"` vs `"a_b"`). -/
theorem spec_c2_cex :
    claimConcatKey recAB = claimConcatKey recA_B ∧
    (addEvents [] [] [recAB, recA_B]).2 = [recAB, recA_B] := by
  decide

/-- C2 (amended): the dedup key is title and date joined by an underscore
(absent fields as empty strings); `_add_event` discards a record iff that key
was already seen, with no side effect on a discard; on each run the accepted
list holds exactly one record per seen key, and in particular feeding the
same record (any number of times ≥ 1) yields exactly one accepted record with
its title/date key. -/
theorem spec_c2 :
    (∀ (seen : List Str) (evs : List RawEvent) (e : RawEvent),
      (dedupKey e ∈ seen → addEvent seen evs e = (seen, evs)) ∧
      (dedupKey e ∉ seen → addEvent seen evs e = (dedupKey e :: seen, evs ++ [e]))) ∧
    (∀ (rs : List RawEvent) (k : Str),
      countKey k (addEvents [] [] rs).2 =
        if k ∈ (addEvents [] [] rs).1 then 1 else 0) ∧
    (∀ (rs : List RawEvent) (r : RawEvent), r ∈ rs →
      countKey (dedupKey r) (addEvents [] [] rs).2 = 1) := by
  refine ⟨?_, ?_, ?_⟩
  · intro seen evs e
    constructor
    · intro h; simp only [addEvent, if_pos h]
    · intro h; simp only [addEvent, if_neg h]
  · intro rs k
    apply addEvents_inv
    intro k'
    simp [countKey]
  · intro rs r hr
    have h := addEvents_inv rs [] [] (by intro k'; simp [countKey]) (dedupKey r)
    rw [h, if_pos (addEvents_key_seen rs [] [] r hr)]

/-- C2 witness: the amended claim at a concrete input — feeding the same
record twice yields exactly one accepted record with its key. -/
theorem spec_c2_witness :
    recAB ∈ [recAB, recAB] ∧
    countKey (dedupKey recAB) (addEvents [] [] [recAB, recAB]).2 = 1 :=
  ⟨List.mem_cons_self _ _, spec_c2.2.2 [recAB, recAB] recAB (List.mem_cons_self _ _)⟩

/-- C5: a record with a parseable, non-sentinel date is kept iff the parsed
date is at least `referenceTime - 7 days`; with reference time
2025-01-08T00:00:00 a record dated exactly 2025-01-01T00:00:00 is retained
and one dated 2024-12-31T23:59:59 is dropped. -/
theorem spec_c5 :
    (∀ (parse : Str → Option Int) (now t : Int) (d : Str),
      d ≠ [] → d ≠ txt "TBD" → parse d = some t →
      (keepDate parse now (some d) = true ↔ now - 7 * 86400 ≤ t)) ∧
    keepDate parseISO8601 refTime (some (txt "2025-01-01T00:00:00")) = true ∧
    keepDate parseISO8601 refTime (some (txt "2024-12-31T23:59:59")) = false := by
  refine ⟨?_, by decide, by decide⟩
  intro parse now t d h1 h2 hp
  simp only [keepDate, Option.getD_some]
  rw [if_neg (by rintro (hc | hc) <;> [exact h1 hc; exact h2 hc]), hp]
  exact decide_eq_true_iff

/-- C5 witness: the general cutoff rule applied at the concrete boundary
input (date 2025-01-01T00:00:00 with reference time 2025-01-08T00:00:00). -/
theorem spec_c5_witness :
    (keepDate parseISO8601 refTime (some (txt "2025-01-01T00:00:00")) = true ↔
      refTime - 7 * 86400 ≤ (parseISO8601 (txt "2025-01-01T00:00:00")).getD 0) :=
  spec_c5.1 parseISO8601 refTime _ _ (by decide) (by decide) (by decide)

/-- C6: the temporal filter unconditionally keeps a record whose date is
absent, empty, the sentinel `"TBD"`, or unparseable, whatever the reference
time. -/
theorem spec_c6 (parse : Str → Option Int) (now : Int) :
    keepDate parse now none = true ∧
    keepDate parse now (some (txt "TBD")) = true ∧
    (∀ d, parse d = none → keepDate parse now (some d) = true) ∧
    (∀ (evs : List CatalogEvent) (ev : CatalogEvent), ev ∈ evs →
      keepDate parse now ev.date = true → ev ∈ filter_past_events parse now evs) := by
  refine ⟨rfl, by simp [keepDate], ?_, ?_⟩
  · intro d h
    rw [keepDate]
    split
    · rfl
    · simp only [Option.getD_some, h]
  · intro evs ev hmem hkeep
    exact List.mem_filter.mpr ⟨hmem, hkeep⟩

/-- A catalog event with the sentinel `"TBD"` date. -/
def tbdEvent : CatalogEvent :=
  { title := none, description := [], url := none, date := some (txt "TBD"),
    source := none, organizer := [], id := [], location := indyDefault,
    features := ⟨false, false, false, false, false, false⟩ }

/-- C6 witness: a `"TBD"`-dated record survives the filter at a concrete
reference time. -/
theorem spec_c6_witness :
    tbdEvent ∈ filter_past_events parseISO8601 0 [tbdEvent] :=
  (spec_c6 parseISO8601 0).2.2.2 [tbdEvent] tbdEvent (List.mem_cons_self _ _)
    (by decide)

/-- C7: feature extraction is a function of the combined lower-cased
title/description buffer alone, and on the text
"Free networking mixer with coffee and beer" yields free, appetizers,
non-alcoholic drinks and alcohol but not food. -/
theorem spec_c7 :
    (∀ (t1 d1 t2 d2 : Str) (cf : Bool), combined t1 d1 = combined t2 d2 →
      computeFeatures t1 d1 cf = computeFeatures t2 d2 cf) ∧
    computeFeatures (txt "Free networking mixer with coffee and beer") (txt "")
        false =
      { free := true, food := false, appetizers := true,
        nonAlcoholDrinks := true, alcoholDrinks := true,
        captainForged := false } := by
  refine ⟨?_, by decide⟩
  intro t1 d1 t2 d2 cf h
  simp only [computeFeatures, h]

/-- C7 witness: the determinism conjunct applied at concrete inputs whose
combined buffers agree up to case. -/
theorem spec_c7_witness :
    combined (txt "Free") (txt "") = combined (txt "free") (txt "") ∧
    computeFeatures (txt "Free") (txt "") true =
      computeFeatures (txt "free") (txt "") true :=
  ⟨by decide, spec_c7.1 _ _ _ _ true (by decide)⟩

/-- C1: every enriched record carries a location that is the geocoded result
when step 1 succeeds, else the first matching city centroid, else the
Indianapolis default — so it is always populated — and a feature set holding
all six booleans computed from the record's text; and every member of the
enriched catalog arises this way. -/
theorem spec_c1 (svc : Str → Option LocData) (idHash : Str → Str) (cache : Cache)
    (e : RawEvent) :
    ((enrichEvent svc idHash cache e).1.location =
        ((locStep1 svc cache e).1 <|> cityStep e).getD indyDefault ∧
     (enrichEvent svc idHash cache e).1.features =
        computeFeatures (e.title.getD []) (e.description.getD []) e.captainForged) ∧
    (∀ (es : List RawEvent) (ee : CatalogEvent),
      ee ∈ (enrichEvents svc idHash cache es).1 →
      ∃ (c : Cache) (e0 : RawEvent), ee = (enrichEvent svc idHash c e0).1) := by
  refine ⟨⟨rfl, rfl⟩, ?_⟩
  intro es
  induction es generalizing cache with
  | nil => intro ee h; exact absurd h (List.not_mem_nil ee)
  | cons e0 es ih =>
    intro ee h
    rcases List.mem_cons.mp h with rfl | htail
    · exact ⟨cache, e0, rfl⟩
    · exact ih _ ee htail

/-- A minimal raw record: every optional field absent. -/
def emptyRaw : RawEvent :=
  { title := none, description := none, url := none, date := none,
    source := none, organizer := none, id := none, location := none,
    captainForged := false }

/-- C1 witness: the catalog-membership conjunct at a concrete run (one empty
record, failing geocoder), whose enrichment therefore carries the
Indianapolis default location. -/
theorem spec_c1_witness :
    ∃ (c : Cache) (e0 : RawEvent),
      (enrichEvent (fun _ => none) (fun _ => []) [] emptyRaw).1 =
        (enrichEvent (fun _ => none) (fun _ => []) c e0).1 :=
  (spec_c1 (fun _ => none) (fun _ => []) [] emptyRaw).2 [emptyRaw]
    (enrichEvent (fun _ => none) (fun _ => []) [] emptyRaw).1
    (List.mem_cons_self _ _)

/-- A record has no usable address when its location dictionary or address
key is absent, or the address string fails the completeness test. -/
def noUsableAddress (e : RawEvent) : Prop :=
  e.location = none ∨
    ∃ loc, e.location = some loc ∧
      (loc.address = none ∨
        ∃ a, loc.address = some a ∧ looksComplete a = false)

/-- C8: for a record with no usable address the resolver issues no external
geocoding action and leaves the cache untouched; the city scan is a
first-match lookup of the lower-cased title in the static table, returning
the fixed centroid with the synthetic address `"<City>, Indiana"`, and when
it matches, that is the location attached to the record. -/
theorem spec_c8 (svc : Str → Option LocData) (idHash : Str → Str) (cache : Cache)
    (e : RawEvent) (h : noUsableAddress e) :
    (enrichEvent svc idHash cache e).2.2 = [] ∧
    (enrichEvent svc idHash cache e).2.1 = cache ∧
    (∀ l, cityStep e = some l → (enrichEvent svc idHash cache e).1.location = l) ∧
    cityStep e =
      (indiana_cities.find? (fun c => csub (lowerStr (e.title.getD [])) c.1)).map
        (fun c =>
          { name := titleCase c.1
            address := titleCase c.1 ++ txt ", Indiana"
            lat := c.2.1
            lng := c.2.2 }) := by
  have hstep : locStep1 svc cache e = (none, cache, []) := by
    rcases h with h0 | ⟨loc, hloc, h1⟩
    · simp [locStep1, h0]
    · rcases h1 with ha | ⟨a, ha, hlc⟩
      · simp [locStep1, hloc, ha]
      · simp [locStep1, hloc, ha, hlc]
  refine ⟨?_, ?_, ?_, ?_⟩
  · show (locStep1 svc cache e).2.2 = []
    rw [hstep]
  · show (locStep1 svc cache e).2.1 = cache
    rw [hstep]
  · intro l hl
    show ((locStep1 svc cache e).1 <|> cityStep e).getD indyDefault = l
    rw [hstep, hl]
    rfl
  · simp only [cityStep]
    cases indiana_cities.find? (fun c => csub (lowerStr (e.title.getD [])) c.1) <;>
      rfl

/-! ## Supporting lemmas for the geocode cache -/

theorem cache_hit_geocode {svc : Str → Option LocData} {cache : Cache} {a : Str}
    {v : LocData} (h : Cache.find cache (normKey a) = some v) :
    geocode_address svc cache a = (some v, cache, []) := by
  simp only [geocode_address, h]

theorem find_preserved {svc : Str → Option LocData} {cache : Cache} {a k : Str}
    {v : LocData} (h : Cache.find cache k = some v) :
    Cache.find (geocode_address svc cache a).2.1 k = some v := by
  simp only [geocode_address]
  cases hf : Cache.find cache (normKey a) with
  | some w => exact h
  | none =>
    cases svc (buildQuery a) with
    | some loc =>
      simp only [Cache.find]
      by_cases he : normKey a = k
      · rw [he] at hf
        rw [hf] at h
        exact absurd h (by simp)
      · rw [if_neg he]
        exact h
    | none => exact h

theorem geocode_success_cached {svc : Str → Option LocData} {cache : Cache}
    {a : Str} {v : LocData} (h : (geocode_address svc cache a).1 = some v) :
    Cache.find (geocode_address svc cache a).2.1 (normKey a) = some v := by
  cases hf : Cache.find cache (normKey a) with
  | some w =>
    have hit : geocode_address svc cache a = (some w, cache, []) :=
      cache_hit_geocode hf
    rw [hit] at h ⊢
    rw [hf]
    exact h
  | none =>
    simp only [geocode_address, hf] at h ⊢
    cases hs : svc (buildQuery a) with
    | some loc =>
      rw [hs] at h
      show Cache.find ((normKey a, loc) :: cache) (normKey a) = some v
      have h2 : some loc = some v := h
      simpa [Cache.find] using h2
    | none =>
      rw [hs] at h
      exact absurd h (by simp)

theorem runGeocodes_preserves {svc : Str → Option LocData} {k : Str} {v : LocData} :
    ∀ (as : List Str) (cache : Cache), Cache.find cache k = some v →
      Cache.find (runGeocodes svc cache as).1 k = some v := by
  intro as
  induction as with
  | nil => intro cache h; exact h
  | cons a as ih =>
    intro cache h
    exact ih _ (find_preserved h)

/-- C3: once `geocode_address` resolves an address successfully, any later
lookup of an address with the same normalized key — after arbitrarily many
intervening lookups — returns the cached coordinates, changes nothing, and
performs no external action. -/
theorem spec_c3 (svc : Str → Option LocData) (cache : Cache) (a a2 : Str)
    (v : LocData) (rest : List Str)
    (h : (geocode_address svc cache a).1 = some v)
    (h2 : normKey a2 = normKey a) :
    geocode_address svc
        (runGeocodes svc (geocode_address svc cache a).2.1 rest).1 a2 =
      (some v, (runGeocodes svc (geocode_address svc cache a).2.1 rest).1, []) := by
  apply cache_hit_geocode
  rw [h2]
  exact runGeocodes_preserves rest _ (geocode_success_cached h)

/-- A fixed geocoding response used in concrete runs. -/
def locW : LocData := { lat := 1, lng := 2, address := txt "Main St, Carmel, Indiana" }

/-- C3 witness: a successful resolution of "500 Main St, Carmel" followed by
an unrelated lookup; a re-lookup of the same address differing only in case
and surrounding whitespace is served from the cache with no action. -/
theorem spec_c3_witness :
    ((geocode_address (fun _ => some locW) [] (txt "500 Main St, Carmel")).1 =
        some locW) ∧
    geocode_address (fun _ => some locW)
        (runGeocodes (fun _ => some locW)
          (geocode_address (fun _ => some locW) [] (txt "500 Main St, Carmel")).2.1
          [txt "Muncie"]).1 (txt "  500 MAIN ST, CARMEL ") =
      (some locW,
        (runGeocodes (fun _ => some locW)
          (geocode_address (fun _ => some locW) [] (txt "500 Main St, Carmel")).2.1
          [txt "Muncie"]).1, []) :=
  ⟨by rfl,
   spec_c3 (fun _ => some locW) [] (txt "500 Main St, Carmel")
     (txt "  500 MAIN ST, CARMEL ") locW [txt "Muncie"] (by rfl) (by rfl)⟩

/-- Number of lookups among `as` (processed in order from `cache`) that have
normalized key `k` and issue an external request (cache miss). -/
def extCallsFor (svc : Str → Option LocData) (cache : Cache) (k : Str) :
    List Str → Nat
  | [] => 0
  | a :: as =>
    let r := geocode_address svc cache a
    (if normKey a = k ∧ r.2.2 ≠ [] then 1 else 0) + extCallsFor svc r.2.1 k as

/-- Like `extCallsFor`, counting only requests whose resolution succeeds. -/
def succCallsFor (svc : Str → Option LocData) (cache : Cache) (k : Str) :
    List Str → Nat
  | [] => 0
  | a :: as =>
    let r := geocode_address svc cache a
    (if normKey a = k ∧ r.2.2 ≠ [] ∧ r.1.isSome then 1 else 0) +
      succCallsFor svc r.2.1 k as

/-- C4 counterexample: when the external service fails (e.g. an unknown
address), two records with the same address trigger two external calls in one
run — the claim's unconditional "at most once per address" bound is false. -/
theorem spec_c4_cex :
    extCallsFor (fun _ => none) [] (normKey (txt "nowhere special"))
        [txt "nowhere special", txt "nowhere special"] = 2 ∧
    ¬ (extCallsFor (fun _ => none) [] (normKey (txt "nowhere special"))
        [txt "nowhere special", txt "nowhere special"] ≤ 1) := by
  constructor
  · rfl
  · intro h
    have : (2 : Nat) ≤ 1 := by
      calc (2 : Nat) = extCallsFor (fun _ => none) [] (normKey (txt "nowhere special"))
            [txt "nowhere special", txt "nowhere special"] := by rfl
        _ ≤ 1 := h
    omega

theorem succCallsFor_cached {svc : Str → Option LocData} {k : Str} {v : LocData} :
    ∀ (as : List Str) (cache : Cache), Cache.find cache k = some v →
      succCallsFor svc cache k as = 0 := by
  intro as
  induction as with
  | nil => intro cache h; rfl
  | cons a as ih =>
    intro cache h
    simp only [succCallsFor]
    by_cases he : normKey a = k
    · have hit : geocode_address svc cache a = (some v, cache, []) :=
        cache_hit_geocode (he ▸ h)
      rw [hit]
      simp only [ne_eq, not_true_eq_false, and_false, false_and, if_false]
      rw [ih cache h]
    · rw [if_neg (fun hc => he hc.1)]
      rw [ih _ (find_preserved h)]

/-- C4 (amended): per normalized address, at most one *successful* external
geocoding call happens per run; once a lookup of the address succeeds, later
lookups are served from the cache (no further external call for it). -/
theorem spec_c4 (svc : Str → Option LocData) (cache : Cache) (k : Str)
    (as : List Str) : succCallsFor svc cache k as ≤ 1 := by
  induction as generalizing cache with
  | nil => exact Nat.zero_le 1
  | cons a as ih =>
    simp only [succCallsFor]
    by_cases hc : normKey a = k ∧ (geocode_address svc cache a).2.2 ≠ [] ∧
        ((geocode_address svc cache a).1).isSome
    · rw [if_pos hc]
      obtain ⟨v, hv⟩ := Option.isSome_iff_exists.mp hc.2.2
      have : succCallsFor svc (geocode_address svc cache a).2.1 k as = 0 :=
        succCallsFor_cached as _ (hc.1 ▸ geocode_success_cached hv)
      omega
    · rw [if_neg hc]
      simpa using ih _

/-! ## Supporting lemmas for rate-limit pacing -/

/-- Every external request in a trace is immediately preceded by the fixed
1.1-second sleep. -/
def wellPaced (t : List Action) : Prop :=
  ∀ (i : Nat) (q : Str), t[i]? = some (Action.request q) →
    1 ≤ i ∧ t[i - 1]? = some (Action.sleep (11/10))

theorem wellPaced_nil : wellPaced [] := by
  intro i q h
  simp at h

theorem wellPaced_pair (q : Str) :
    wellPaced [Action.sleep (11/10), Action.request q] := by
  intro i q' h
  match i with
  | 0 => simp at h
  | 1 => exact ⟨Nat.le_refl 1, rfl⟩
  | (n + 2) => simp at h

theorem wellPaced_append {xs ys : List Action} (hx : wellPaced xs)
    (hy : wellPaced ys) : wellPaced (xs ++ ys) := by
  intro i q h
  by_cases hlt : i < xs.length
  · rw [List.getElem?_append_left hlt] at h
    obtain ⟨h1, h2⟩ := hx i q h
    refine ⟨h1, ?_⟩
    rw [List.getElem?_append_left (by omega)]
    exact h2
  · push_neg at hlt
    rw [List.getElem?_append_right hlt] at h
    obtain ⟨h1, h2⟩ := hy (i - xs.length) q h
    have hxi : xs.length + 1 ≤ i := by omega
    refine ⟨by omega, ?_⟩
    rw [List.getElem?_append_right (by omega)]
    have : i - 1 - xs.length = i - xs.length - 1 := by omega
    rw [this]
    exact h2

theorem geocode_trace_paced (svc : Str → Option LocData) (cache : Cache)
    (a : Str) : wellPaced (geocode_address svc cache a).2.2 := by
  simp only [geocode_address]
  cases Cache.find cache (normKey a) with
  | some v => exact wellPaced_nil
  | none =>
    cases svc (buildQuery a) with
    | some loc => exact wellPaced_pair _
    | none => exact wellPaced_pair _

theorem locStep1_trace_shape (svc : Str → Option LocData) (cache : Cache)
    (e : RawEvent) :
    (locStep1 svc cache e).2.2 = [] ∨
      ∃ a, (locStep1 svc cache e).2.2 = (geocode_address svc cache a).2.2 := by
  obtain ⟨t, d, u, dt, s, o, i, lo, cf⟩ := e
  cases lo with
  | none => exact Or.inl rfl
  | some loc =>
    obtain ⟨nm, ad⟩ := loc
    cases ad with
    | none => exact Or.inl rfl
    | some address =>
      by_cases hc : looksComplete address
      · refine Or.inr ⟨address, ?_⟩
        simp only [locStep1, if_pos hc]
        cases (geocode_address svc cache address).1 <;> rfl
      · left
        simp only [locStep1, if_neg hc]

theorem locStep1_trace_paced (svc : Str → Option LocData) (cache : Cache)
    (e : RawEvent) : wellPaced (locStep1 svc cache e).2.2 := by
  rcases locStep1_trace_shape svc cache e with h | ⟨a, h⟩
  · rw [h]; exact wellPaced_nil
  · rw [h]; exact geocode_trace_paced svc cache a

/-- C10: a cache hit issues neither a request nor a delay, and in every trace
of the pipeline — a single `geocode_address` call or a whole
`enrich_events` run — each external request is immediately preceded by the
fixed 1.1-second sleep. -/
theorem spec_c10 (svc : Str → Option LocData) (idHash : Str → Str)
    (cache : Cache) :
    (∀ (a : Str) (v : LocData), Cache.find cache (normKey a) = some v →
      geocode_address svc cache a = (some v, cache, [])) ∧
    (∀ a : Str, wellPaced (geocode_address svc cache a).2.2) ∧
    (∀ es : List RawEvent, wellPaced (enrichEvents svc idHash cache es).2.2) := by
  refine ⟨fun a v h => cache_hit_geocode h, geocode_trace_paced svc cache, ?_⟩
  intro es
  induction es generalizing cache with
  | nil => exact wellPaced_nil
  | cons e es ih =>
    exact wellPaced_append (locStep1_trace_paced svc cache e) (ih _)

/-! ## Supporting lemmas for the description backfill (C9)

`enrich_events` computes the feature booleans from the record's description
*before* the missing-description backfill, while the claim relates them to
the *final* description.  The two agree extensionally: the backfill template
`"Entrepreneur event: <title>"` can never introduce or destroy a keyword
occurrence, which the following occurrence-splitting lemmas establish. -/

theorem prefix_split {α : Type} {k a b : List α} (h : k <+: a ++ b) :
    k <+: a ∨ ∃ k2, k = a ++ k2 ∧ k2 <+: b := by
  obtain ⟨t, ht⟩ := h
  rcases List.append_eq_append_iff.mp ht with ⟨w, hw1, hw2⟩ | ⟨w, hw1, hw2⟩
  · exact Or.inl ⟨w, hw1.symm⟩
  · exact Or.inr ⟨w, hw1, ⟨t, hw2.symm⟩⟩

theorem suffix_split {α : Type} {k a b : List α} (h : k <:+ a ++ b) :
    k <:+ b ∨ ∃ k1, k = k1 ++ b ∧ k1 <:+ a := by
  obtain ⟨s, hs⟩ := h
  rcases List.append_eq_append_iff.mp hs with ⟨w, hw1, hw2⟩ | ⟨w, hw1, hw2⟩
  · exact Or.inr ⟨w, hw2, ⟨s, hw1.symm⟩⟩
  · exact Or.inl ⟨w, hw2.symm⟩

theorem infix_split {α : Type} {k a b : List α} (h : k <:+: a ++ b) :
    k <:+: a ∨ k <:+: b ∨
      ∃ k1 k2, k = k1 ++ k2 ∧ k1 ≠ [] ∧ k2 ≠ [] ∧ k1 <:+ a ∧ k2 <+: b := by
  obtain ⟨u, hku, hu⟩ := List.infix_iff_prefix_suffix.mp h
  rcases suffix_split hu with hub | ⟨w, rfl, hwa⟩
  · exact Or.inr (Or.inl ( List.infix_iff_prefix_suffix.mpr ⟨u, hku, hub⟩))
  · rcases prefix_split hku with hkw | ⟨k2, rfl, hk2⟩
    · exact Or.inl ( List.infix_iff_prefix_suffix.mpr ⟨w, hkw, hwa⟩)
    · by_cases hw : w = []
      · subst hw
        exact Or.inr (Or.inl (by simpa using List.IsPrefix.isInfix hk2))
      · by_cases hk2e : k2 = []
        · subst hk2e
          exact Or.inl (by simpa using List.IsSuffix.isInfix hwa)
        · exact Or.inr (Or.inr ⟨w, k2, rfl, hw, hk2e, hwa, hk2⟩)

/-- The lower-cased text inserted by the backfill between the title and its
second copy in the combined search buffer: separator space plus the
lower-cased template head. -/
def midLit : Str := txt " entrepreneur event: "

/-- The keyword shape that makes backfill-invariance work: the keyword does
not occur inside the inserted literal, contains no colon, does not start
with a space, and does not contain a space immediately followed by `e`. -/
def KeywordOK (k : Str) : Prop :=
  ¬ k <:+: midLit ∧ ':' ∉ k ∧ k.head? ≠ some ' ' ∧ ¬ [' ', 'e'] <:+: k

instance (k : Str) : Decidable (KeywordOK k) := by
  unfold KeywordOK
  infer_instance

theorem midLit_tails :
    ∀ x ∈ midLit.tails, x = [] ∨ x = [' '] ∨ ':' ∈ x := by decide

theorem midLit_inits :
    ∀ x ∈ midLit.inits, x = [] ∨ x = [' '] ∨ [' ', 'e'] <+: x := by decide

/-- Occurrence invariance: a `KeywordOK` keyword occurs in
`t ++ midLit ++ t` iff it occurs in `t ++ " "`. -/
theorem keyword_backfill_iff {k : Str} (t : Str) (hk : KeywordOK k) :
    (k <:+: t ++ midLit ++ t) ↔ (k <:+: t ++ [' ']) := by
  obtain ⟨h1, h2, h3, h4⟩ := hk
  constructor
  · intro h
    rw [List.append_assoc] at h
    rcases infix_split h with hA | hB | ⟨k1, k2, hk12, hk1ne, hk2ne, hk1, hk2⟩
    · exact hA.trans ( List.IsPrefix.isInfix ( List.prefix_append t [' ']))
    · rcases infix_split hB with hBa | hBb | ⟨k1, k2, hk12, hk1ne, hk2ne, hk1, hk2⟩
      · exact absurd hBa h1
      · exact hBb.trans ( List.IsPrefix.isInfix ( List.prefix_append t [' ']))
      · rcases midLit_tails k1 ((List.mem_tails _ _).mpr hk1) with rfl | rfl | hcolon
        · exact absurd rfl hk1ne
        · subst hk12
          exact absurd rfl h3
        · subst hk12
          exact absurd (List.mem_append.mpr (Or.inl hcolon)) h2
    · rcases prefix_split hk2 with hk2m | ⟨k3, hk3, hk3p⟩
      · rcases midLit_inits k2 ((List.mem_inits _ _).mpr hk2m) with rfl | rfl | hse
        · exact absurd rfl hk2ne
        · subst hk12
          obtain ⟨s, hs⟩ := hk1
          exact ( List.IsSuffix.isInfix ⟨s, by rw [← List.append_assoc, hs]⟩)
        · subst hk12
          exact absurd
            ( List.infix_iff_prefix_suffix.mpr ⟨k2, hse, ⟨k1, rfl⟩⟩) h4
      · subst hk12 hk3
        have hcm : ':' ∈ midLit := by decide
        exact absurd
          (List.mem_append.mpr (Or.inr (List.mem_append.mpr (Or.inl hcm)))) h2
  · intro h
    refine h.trans ( List.IsPrefix.isInfix ?_)
    refine ⟨txt "entrepreneur event: " ++ t, ?_⟩
    have hm : midLit = [' '] ++ txt "entrepreneur event: " := by decide
    rw [hm]
    simp [List.append_assoc]

theorem csub_backfill {k : Str} (t : Str) (hk : KeywordOK k) :
    csub (t ++ midLit ++ t) k = csub (t ++ [' ']) k := by
  simp only [csub]
  exact decide_eq_decide.mpr (keyword_backfill_iff t hk)

theorem anyKey_backfill (t : Str) (L : List Str) (hL : ∀ k ∈ L, KeywordOK k) :
    anyKey (t ++ midLit ++ t) L = anyKey (t ++ [' ']) L := by
  induction L with
  | nil => rfl
  | cons k L ih =>
    have hk := hL k (List.mem_cons_self _ _)
    have hrest := fun k' h' => hL k' (List.mem_cons_of_mem _ h')
    simp only [anyKey, List.any_cons]
    rw [csub_backfill t hk]
    have := ih hrest
    simp only [anyKey] at this
    rw [this]

theorem allKeywordsOK : ∀ k ∈ allKeywords, KeywordOK k := by decide

theorem combined_empty (t : Str) : combined t [] = lowerStr t ++ [' '] := by
  simp [combined, lowerStr]

theorem combined_template (t : Str) :
    combined t (txt "Entrepreneur event: " ++ t) =
      lowerStr t ++ midLit ++ lowerStr t := by
  have h1 : List.map Char.toLower (txt "Entrepreneur event: ") =
      txt "entrepreneur event: " := by decide
  have h2 : midLit = [' '] ++ txt "entrepreneur event: " := by decide
  simp [combined, lowerStr, List.map_append, h1, h2, List.append_assoc]

/-- The extensional heart of C9: extracting features against the backfill
template `"Entrepreneur event: <title>"` gives the same six booleans as
extracting against the absent (empty) description the code actually used. -/
theorem computeFeatures_backfill (t : Str) (cf : Bool) :
    computeFeatures t (txt "Entrepreneur event: " ++ t) cf =
      computeFeatures t [] cf := by
  have hfree : ∀ k ∈ free_keywords, KeywordOK k := by decide
  have hfood : ∀ k ∈ food_keywords, KeywordOK k := by decide
  have hfet : ∀ k ∈ food_event_types, KeywordOK k := by decide
  have happ : ∀ k ∈ appetizer_keywords, KeywordOK k := by decide
  have hnet : ∀ k ∈ networking_keywords, KeywordOK k := by decide
  have hna : ∀ k ∈ nonalc_keywords, KeywordOK k := by decide
  have hcof : ∀ k ∈ coffee_events, KeywordOK k := by decide
  have halc : ∀ k ∈ alc_keywords, KeywordOK k := by decide
  simp only [computeFeatures, combined_template, combined_empty]
  rw [anyKey_backfill _ _ hfree, anyKey_backfill _ _ hfood,
    anyKey_backfill _ _ hfet, anyKey_backfill _ _ happ,
    anyKey_backfill _ _ hnet, anyKey_backfill _ _ hna,
    anyKey_backfill _ _ hcof, anyKey_backfill _ _ halc]

/-- C9: the feature set attached to each enriched record equals the feature
extraction applied to the record's title and its *final* catalog
description.  (Operationally the code extracts from the pre-backfill
description, but the backfill template cannot change any keyword test.) -/
theorem spec_c9 (svc : Str → Option LocData) (idHash : Str → Str)
    (cache : Cache) (e : RawEvent) :
    (enrichEvent svc idHash cache e).1.features =
      computeFeatures (e.title.getD [])
        (enrichEvent svc idHash cache e).1.description e.captainForged := by
  show computeFeatures (e.title.getD []) (e.description.getD []) e.captainForged =
    computeFeatures (e.title.getD [])
      (e.description.getD (txt "Entrepreneur event: " ++ e.title.getD []))
      e.captainForged
  cases hd : e.description with
  | some d => rfl
  | none => exact (computeFeatures_backfill _ _).symm

/-- C10 witness: the cache-hit conjunct at a concrete cache — no action, no
request. -/
theorem spec_c10_witness :
    geocode_address (fun _ => some locW) [(normKey (txt "Muncie"), locW)]
        (txt "Muncie") =
      (some locW, [(normKey (txt "Muncie"), locW)], []) :=
  (spec_c10 (fun _ => some locW) (fun _ => []) [(normKey (txt "Muncie"), locW)]).1
    (txt "Muncie") locW (by rfl)

/-- The "1 Million Cups Indianapolis" record of the claim: a title naming the
city, no location dictionary at all. -/
def cupsEvent : RawEvent :=
  { title := some (txt "1 Million Cups Indianapolis"), description := none,
    url := none, date := none, source := none, organizer := none, id := none,
    location := none, captainForged := false }

/-- C8 witness: the "1 Million Cups Indianapolis" record resolves to the
Indianapolis centroid with the synthetic address, issuing no external action. -/
theorem spec_c8_witness :
    (enrichEvent (fun _ => none) (fun _ => []) [] cupsEvent).2.2 = [] ∧
    (enrichEvent (fun _ => none) (fun _ => []) [] cupsEvent).1.location =
      { name := txt "Indianapolis", address := txt "Indianapolis, Indiana",
        lat := 39.7684, lng := -86.1581 } :=
  ⟨(spec_c8 (fun _ => none) (fun _ => []) [] cupsEvent (Or.inl rfl)).1,
   (spec_c8 (fun _ => none) (fun _ => []) [] cupsEvent (Or.inl rfl)).2.2.1 _
     (by rfl)⟩

end Scraper
